import Mathlib

/-!
Verification of the order-book-service repository.

Shallow embedding of the Go sources:
- `pkg/matchingengine/engine.go` — the price-time matching engine (`Engine`).
- `internal/service/order_service.go` — the order service coordinator
  (`placeOrder`, `cancelOrder`, `settleOrder`, `getActiveOrders`).
- `internal/repository/idempotency_repository.go` — the idempotency store
  (`idemCheck`, `idemUpsert`).
- `internal/models` — the `Order`, `Match`, `OutboxEvent` records and the
  sentinel errors.

Numeric model: `shopspring/decimal` values are arbitrary-precision decimals
with exact comparison and arithmetic; they are modelled by `ℚ`.  Go keys the
price-to-level maps by `price.String()`; the model keys them by the rational
value itself (equal values collapse to one key, which is the canonical case).
Timestamps are modelled as `Nat` logical instants where they matter
(idempotency expiry); `matched_at` / `cancelled_at` bookkeeping is not needed
by any claim and is omitted.  UUIDs are modelled as `Nat`.
-/

namespace OrderBook

/-- Order status, a string type in Go (`models.OrderStatus`); settlement
writes values outside the five declared constants, so the model keeps the
underlying string. -/
def OrderStatusPending : String := "PENDING"

def OrderStatusMatched : String := "MATCHED"

def OrderStatusPartially : String := "PARTIALLY"

def OrderStatusCancelled : String := "CANCELLED"

def OrderStatusExpired : String := "EXPIRED"

/-- Order side, a string type in Go (`models.OrderSide`). -/
def OrderSideBack : String := "BACK"

def OrderSideLay : String := "LAY"

/-- `models.Order` — fields a claim inspects.  `market_id`, `selection_id`,
`reservation_id`, `saga_id` and the timestamps are carried by the Go struct
but never examined by any claim and are omitted from the model. -/
structure Order where
  id : Nat
  userId : Nat
  side : String
  price : ℚ
  size : ℚ
  sizeMatched : ℚ
  sizeRemaining : ℚ
  status : String
  idempotencyKey : String := ""
  version : Int := 1
deriving DecidableEq, Repr

/-- `models.Match` — the engine fills every field below; the random `ID` and
the `MatchedAt` wall-clock timestamp are omitted. -/
structure Match where
  backOrderId : Nat
  layOrderId : Nat
  backUserId : Nat
  layUserId : Nat
  price : ℚ
  size : ℚ
  backLiability : ℚ
  layLiability : ℚ
deriving DecidableEq, Repr

/-- `matchingengine.OrderQueue` — the orders resting at one price level. -/
structure OrderQueue where
  price : ℚ
  orders : List Order
deriving DecidableEq, Repr

/-- `matchingengine.Engine` for one (market, selection): two price-keyed
maps of levels (Go: `map[string]*OrderQueue`, modelled as association
lists) and two sorted price indexes. -/
structure Engine where
  backOrders : List (ℚ × OrderQueue)
  layOrders : List (ℚ × OrderQueue)
  backPrices : List ℚ
  layPrices : List ℚ
deriving DecidableEq, Repr

/-- `matchingengine.NewEngine`: the empty book. -/
def Engine.empty : Engine :=
  { backOrders := [], layOrders := [], backPrices := [], layPrices := [] }

/-- Go map read `m[price.String()]`. -/
def lookupQ (m : List (ℚ × OrderQueue)) (p : ℚ) : Option OrderQueue :=
  match m with
  | [] => none
  | (k, q) :: rest => if k = p then some q else lookupQ rest p

/-- Go map write `m[price.String()] = q` (replaces, or appends if absent). -/
def setQ (m : List (ℚ × OrderQueue)) (p : ℚ) (q : OrderQueue) :
    List (ℚ × OrderQueue) :=
  match m with
  | [] => [(p, q)]
  | (k, q0) :: rest => if k = p then (p, q) :: rest else (k, q0) :: setQ rest p q

/-- `insertPriceDescending`: walk past strictly greater prices, insert. -/
def insertPriceDescending (prices : List ℚ) (newPrice : ℚ) : List ℚ :=
  match prices with
  | [] => [newPrice]
  | p :: rest =>
    if newPrice < p then p :: insertPriceDescending rest newPrice
    else newPrice :: p :: rest

/-- `insertPriceAscending`: walk past strictly smaller prices, insert. -/
def insertPriceAscending (prices : List ℚ) (newPrice : ℚ) : List ℚ :=
  match prices with
  | [] => [newPrice]
  | p :: rest =>
    if p < newPrice then p :: insertPriceAscending rest newPrice
    else newPrice :: p :: rest

/-- The match record built in the body of `Engine.matchOrders`:
`matchSize = min(incoming.SizeRemaining, existing.SizeRemaining)`,
price = the level price passed in, `BackLiability = matchSize`,
`LayLiability = matchSize * (matchPrice - 1)`; participant ids are
assigned by the incoming order's side. -/
def mkMatch (incoming existing : Order) (matchPrice : ℚ) : Match :=
  let matchSize := min incoming.sizeRemaining existing.sizeRemaining
  if incoming.side = OrderSideBack then
    { backOrderId := incoming.id, layOrderId := existing.id,
      backUserId := incoming.userId, layUserId := existing.userId,
      price := matchPrice, size := matchSize,
      backLiability := matchSize,
      layLiability := matchSize * (matchPrice - 1) }
  else
    { backOrderId := existing.id, layOrderId := incoming.id,
      backUserId := existing.userId, layUserId := incoming.userId,
      price := matchPrice, size := matchSize,
      backLiability := matchSize,
      layLiability := matchSize * (matchPrice - 1) }

/-- `Engine.matchOrders`: walk the queue front-to-back while the incoming
order has size remaining; each pairing updates both orders' matched and
remaining sizes; a fully consumed resting order is popped from the queue
with status MATCHED, a partially consumed one stays with status PARTIALLY.
Returns (matches, incoming after the walk, queue contents after the walk). -/
def matchOrdersGo (incoming : Order) (orders : List Order) (matchPrice : ℚ) :
    List Match × Order × List Order :=
  match orders with
  | [] => ([], incoming, [])
  | existing :: rest =>
    if incoming.sizeRemaining = 0 then ([], incoming, existing :: rest)
    else
      let matchSize := min incoming.sizeRemaining existing.sizeRemaining
      let m := mkMatch incoming existing matchPrice
      let incoming' : Order := { incoming with
        sizeMatched := incoming.sizeMatched + matchSize,
        sizeRemaining := incoming.sizeRemaining - matchSize }
      let existing' : Order := { existing with
        sizeMatched := existing.sizeMatched + matchSize,
        sizeRemaining := existing.sizeRemaining - matchSize }
      if existing'.sizeRemaining = 0 then
        -- fully matched: popped from the queue, status MATCHED
        let r := matchOrdersGo incoming' rest matchPrice
        (m :: r.1, r.2.1, r.2.2)
      else
        -- partially matched: stays in place with status PARTIALLY
        let existingKept : Order := { existing' with status := OrderStatusPartially }
        let r := matchOrdersGo incoming' rest matchPrice
        (m :: r.1, r.2.1, existingKept :: r.2.2)

/-- The level walk of `placeBackOrder`: iterate the lay prices in stored
(ascending) order; stop when the incoming order is exhausted or the level
is no longer eligible (`order.Price < layPrice`); otherwise run
`matchOrders` against that level's queue and store the shrunk queue back
(Go mutates the queue through the map's pointer).  Returns
(matches, incoming after the walk, lay map after the walk).
A price with no map entry would be a nil-pointer dereference in Go; it is
unreachable (see `enginePricesCovered`) and the model skips it. -/
def walkLayLevels (order : Order) (prices : List ℚ)
    (lay : List (ℚ × OrderQueue)) :
    List Match × Order × List (ℚ × OrderQueue) :=
  match prices with
  | [] => ([], order, lay)
  | layPrice :: rest =>
    if order.sizeRemaining = 0 then ([], order, lay)
    else if order.price < layPrice then ([], order, lay)
    else
      match lookupQ lay layPrice with
      | none => walkLayLevels order rest lay
      | some queue =>
        let r := matchOrdersGo order queue.orders layPrice
        let lay' := setQ lay layPrice { queue with orders := r.2.2 }
        let w := walkLayLevels r.2.1 rest lay'
        (r.1 ++ w.1, w.2.1, w.2.2)

/-- The level walk of `placeLayOrder` over the back prices (descending);
eligibility fails when `order.Price > backPrice`. -/
def walkBackLevels (order : Order) (prices : List ℚ)
    (back : List (ℚ × OrderQueue)) :
    List Match × Order × List (ℚ × OrderQueue) :=
  match prices with
  | [] => ([], order, back)
  | backPrice :: rest =>
    if order.sizeRemaining = 0 then ([], order, back)
    else if backPrice < order.price then ([], order, back)
    else
      match lookupQ back backPrice with
      | none => walkBackLevels order rest back
      | some queue =>
        let r := matchOrdersGo order queue.orders backPrice
        let back' := setQ back backPrice { queue with orders := r.2.2 }
        let w := walkBackLevels r.2.1 rest back'
        (r.1 ++ w.1, w.2.1, w.2.2)

/-- `Engine.addBackOrder`: append the order at the tail of its price
level, creating the level and inserting the price into the descending
index when the price is new.  Go's helper ends by writing
`order.Status = PENDING` through the shared pointer; in `placeBackOrder`
the caller immediately overwrites that same pointer's status with
PARTIALLY, so the PENDING write is a dead store and the model inserts the
caller-final order value (see `Engine.placeBackOrder`). -/
def Engine.addBackOrder (e : Engine) (o : Order) : Engine :=
  match lookupQ e.backOrders o.price with
  | some q =>
    let q' : OrderQueue := { q with orders := q.orders ++ [o] }
    { e with backOrders := setQ e.backOrders o.price q' }
  | none =>
    let q' : OrderQueue := { price := o.price, orders := [o] }
    { e with
      backOrders := setQ e.backOrders o.price q',
      backPrices := insertPriceDescending e.backPrices o.price }

/-- `Engine.addLayOrder`, mirror of `Engine.addBackOrder`. -/
def Engine.addLayOrder (e : Engine) (o : Order) : Engine :=
  match lookupQ e.layOrders o.price with
  | some q =>
    let q' : OrderQueue := { q with orders := q.orders ++ [o] }
    { e with layOrders := setQ e.layOrders o.price q' }
  | none =>
    let q' : OrderQueue := { price := o.price, orders := [o] }
    { e with
      layOrders := setQ e.layOrders o.price q',
      layPrices := insertPriceAscending e.layPrices o.price }

/-- Result of `Engine.PlaceOrder` (which also mutates the engine and the
incoming order in place in Go). -/
structure EnginePlaceResult where
  engine : Engine
  order : Order
  matchList : List Match
deriving DecidableEq, Repr

/-- `Engine.placeBackOrder`: match against the lay side, then — if size
remains — insert the residual at the tail of its back level.  The final
status of a resting residual is PARTIALLY unconditionally: Go runs
`e.addBackOrder(order)` (whose trailing `order.Status = PENDING` is
immediately overwritten) and then `order.Status = PARTIALLY` on the same
pointer the queue holds, so both the book entry and the returned order end
PARTIALLY even when no match occurred.  A fully consumed incoming order
gets status MATCHED. -/
def Engine.placeBackOrder (e : Engine) (order : Order) : EnginePlaceResult :=
  let w := walkLayLevels order e.layPrices e.layOrders
  let e1 := { e with layOrders := w.2.2 }
  if (w.2.1).sizeRemaining = 0 then
    ⟨e1, { w.2.1 with status := OrderStatusMatched }, w.1⟩
  else
    let o2 : Order := { w.2.1 with status := OrderStatusPartially }
    ⟨e1.addBackOrder o2, o2, w.1⟩

/-- `Engine.placeLayOrder`, mirror of `Engine.placeBackOrder`. -/
def Engine.placeLayOrder (e : Engine) (order : Order) : EnginePlaceResult :=
  let w := walkBackLevels order e.backPrices e.backOrders
  let e1 := { e with backOrders := w.2.2 }
  if (w.2.1).sizeRemaining = 0 then
    ⟨e1, { w.2.1 with status := OrderStatusMatched }, w.1⟩
  else
    let o2 : Order := { w.2.1 with status := OrderStatusPartially }
    ⟨e1.addLayOrder o2, o2, w.1⟩

/-- `Engine.PlaceOrder` (the Go error result is always nil). -/
def Engine.PlaceOrder (e : Engine) (order : Order) : EnginePlaceResult :=
  if order.side = OrderSideBack then e.placeBackOrder order
  else e.placeLayOrder order

/-- Remove the first order with the given id from a queue's order list
(the inner loop of `Engine.CancelOrder`). -/
def removeFirst (orders : List Order) (oid : Nat) :
    Option (List Order × Order) :=
  match orders with
  | [] => none
  | o :: rest =>
    if o.id = oid then some (rest, o)
    else
      match removeFirst rest oid with
      | none => none
      | some (rest', found) => some (o :: rest', found)

/-- Scan the queues of one side for the order id; on a hit, splice it out
of that queue and mark it CANCELLED (Go also sets `cancelled_at`).  Go
iterates the map in unspecified order; with at most one live occurrence of
an id the outcome is order-independent and the model scans in list order. -/
def cancelInQueues (m : List (ℚ × OrderQueue)) (oid : Nat) :
    Option (List (ℚ × OrderQueue) × Order) :=
  match m with
  | [] => none
  | (k, q) :: rest =>
    match removeFirst q.orders oid with
    | some (orders', found) =>
      some ((k, { q with orders := orders' }) :: rest,
        { found with status := OrderStatusCancelled })
    | none =>
      match cancelInQueues rest oid with
      | none => none
      | some (rest', found) => some ((k, q) :: rest', found)

/-- `Engine.CancelOrder`: search back queues then lay queues; remove and
cancel on a hit, `order not found` error (modelled as `none`) otherwise. -/
def Engine.CancelOrder (e : Engine) (oid : Nat) : Engine × Option Order :=
  match cancelInQueues e.backOrders oid with
  | some (m', o) => ({ e with backOrders := m' }, some o)
  | none =>
    match cancelInQueues e.layOrders oid with
    | some (m', o) => ({ e with layOrders := m' }, some o)
    | none => (e, none)

/-! ## Order service layer (`internal/service/order_service.go`) -/

/-- `service.PlaceOrderRequest`.  The service builds the order with
`Side = OrderSide(req.BetType)` and `Price = req.Odds`, `Size = req.Amount`. -/
structure PlaceOrderRequest where
  userId : Nat
  eventId : String
  betType : String
  selection : String
  amount : ℚ
  odds : ℚ
  reservationId : Option Nat := none
  sagaId : Option Nat := none
  idempotencyKey : String
deriving DecidableEq, Repr

/-- `service.CancelOrderRequest`. -/
structure CancelOrderRequest where
  orderId : Nat
  sagaId : Option Nat := none
  idempotencyKey : String
deriving DecidableEq, Repr

/-- `service.SettleOrderRequest`.  The `Result` field carries the
struct tag `validate:"required,oneof=win loss"`. -/
structure SettleOrderRequest where
  orderId : Nat
  result : String
  actualPayout : ℚ
  sagaId : Option Nat := none
  idempotencyKey : String
deriving DecidableEq, Repr

/-- `validator.Struct` on `PlaceOrderRequest`: every tagged field is
`required`, i.e. must not be its type's zero value (0, empty string,
zero decimal). -/
def validPlaceRequest (req : PlaceOrderRequest) : Bool :=
  req.userId != 0 && req.eventId != "" && req.betType != "" &&
  req.selection != "" && req.amount != 0 && req.odds != 0 &&
  req.idempotencyKey != ""

/-- `validator.Struct` on `CancelOrderRequest`. -/
def validCancelRequest (req : CancelOrderRequest) : Bool :=
  req.orderId != 0 && req.idempotencyKey != ""

/-- `validator.Struct` on `SettleOrderRequest`: the tag
`oneof=win loss` admits exactly the strings "win" and "loss" — a request
with result "push" fails validation even though the gRPC handler
(`SettleBet`) accepts and forwards it. -/
def validSettleRequest (req : SettleOrderRequest) : Bool :=
  req.orderId != 0 &&
  (req.result == "win" || req.result == "loss") &&
  req.actualPayout != 0 &&
  req.idempotencyKey != ""

/-- `repository.ComputeRequestHash`: SHA-256 of the deterministic JSON
serialization of the request.  Modelled by the injective embedding of the
request value itself (hash collisions are out of scope). -/
inductive ReqHash where
  | place : PlaceOrderRequest → ReqHash
  | cancel : CancelOrderRequest → ReqHash
  | settle : SettleOrderRequest → ReqHash
deriving DecidableEq, Repr

/-- One row of the `idempotency_keys` table.  `responseData` is the cached
response JSON: `some o` for a stored order, `none` for the JSON "null"
stored by cancel/settle (whose response argument is Go `nil`). -/
structure IdemRecord where
  requestHash : ReqHash
  responseData : Option Order
  expiresAt : Nat
deriving DecidableEq, Repr

/-- The `idempotency_keys` table, keyed by the idempotency key string
(primary key, hence at most one row per key). -/
abbrev IdemStore := List (String × IdemRecord)

/-- The `SELECT ... WHERE idempotency_key = $1 AND expires_at > NOW()` of
`PostgresIdempotencyRepository.Check`: an expired row is treated as
absent. -/
def lookupLive (store : IdemStore) (now : Nat) (key : String) :
    Option IdemRecord :=
  match store with
  | [] => none
  | (k, r) :: rest =>
    if k = key then (if now < r.expiresAt then some r else none)
    else lookupLive rest now key

/-- The three-valued result of `Check`:
`miss` = `(nil, false, nil)`, `hit d` = `(d, true, nil)`,
`mismatch` = `(nil, true, ErrIdempotencyMismatch)`. -/
inductive CheckResult where
  | miss : CheckResult
  | hit : Option Order → CheckResult
  | mismatch : CheckResult
deriving DecidableEq, Repr

/-- `PostgresIdempotencyRepository.Check`. -/
def idemCheck (store : IdemStore) (now : Nat) (key : String)
    (requestHash : ReqHash) : CheckResult :=
  match lookupLive store now key with
  | none => CheckResult.miss
  | some r =>
    if r.requestHash = requestHash then CheckResult.hit r.responseData
    else CheckResult.mismatch

/-- `PostgresIdempotencyRepository.StoreInTransaction`:
`INSERT ... ON CONFLICT (idempotency_key) DO UPDATE` — an upsert. -/
def idemUpsert (store : IdemStore) (key : String) (r : IdemRecord) :
    IdemStore :=
  match store with
  | [] => [(key, r)]
  | (k, r0) :: rest =>
    if k = key then (key, r) :: rest else (k, r0) :: idemUpsert rest key r

/-- The 24-hour TTL the service passes to `StoreInTransaction`,
in seconds of logical time. -/
def idemTTL : Nat := 24 * 60 * 60

/-- `models.OutboxEvent` — the fields the service fills that a claim
inspects; the JSON payload, timestamps and retry bookkeeping are
omitted. -/
structure OutboxEvent where
  aggregateId : Nat
  aggregateType : String
  eventType : String
  sagaId : Option Nat := none
deriving DecidableEq, Repr

/-- The error values the order service can surface.  `validationFailed`,
`idempotencyMismatch` (= `models.ErrIdempotencyMismatch`), `orderNotFound`
(= `models.ErrOrderNotFound`, returned bare by CancelOrder),
`invalidOrderStatus` (= `models.ErrInvalidOrderStatus`, the sentinel used
by the repository layer but NOT by the service), `cannotCancel s` (the
fresh `fmt.Errorf("order cannot be cancelled: status=%s")` the service
builds instead), `duplicateIdempotencyKey` (`orders.idempotency_key`
unique-constraint violation), and `getOrderFailed` (the wrapped
"failed to get order" of SettleOrder). -/
inductive ServiceError where
  | validationFailed : ServiceError
  | idempotencyMismatch : ServiceError
  | orderNotFound : ServiceError
  | optimisticLock : ServiceError
  | invalidOrderStatus : ServiceError
  | cannotCancel : String → ServiceError
  | duplicateIdempotencyKey : ServiceError
  | getOrderFailed : ServiceError
deriving DecidableEq, Repr

/-- The durable state the service reads and writes in one transaction:
the `orders` table, the `outbox_events` table (append-only here) and the
`idempotency_keys` table. -/
structure ServiceState where
  orders : List Order
  outbox : List OutboxEvent
  idem : IdemStore
deriving DecidableEq, Repr

/-- `GetByIDForUpdate` — row lookup by id (`orders.id` is the primary
key, so first match is the row). -/
def findOrder (orders : List Order) (oid : Nat) : Option Order :=
  match orders with
  | [] => none
  | o :: rest => if o.id = oid then some o else findOrder rest oid

/-- `Update` — write the mutated row back.  The optimistic
`WHERE id = ? AND version = ?` predicate always matches here because the
model runs the transaction alone; the caller passes the row with its
version already incremented (as the repository does in memory on
success). -/
def updateOrderRow (orders : List Order) (updated : Order) : List Order :=
  match orders with
  | [] => []
  | o :: rest =>
    if o.id = updated.id then updated :: rest
    else o :: updateOrderRow rest updated

/-- `json.Unmarshal` of the JSON text "null" leaves the zero-valued
`models.Order` — the deserialization result when a cached response was
stored from a nil value. -/
def zeroOrder : Order :=
  { id := 0, userId := 0, side := "", price := 0, size := 0,
    sizeMatched := 0, sizeRemaining := 0, status := "",
    idempotencyKey := "", version := 0 }

deriving instance DecidableEq for Except

/-- Result of `PlaceOrder`: the returned order or error, the durable
state after the call (a rolled-back transaction leaves it unchanged) and
whether `db.Begin` was reached. -/
structure PlaceOutcome where
  result : Except ServiceError Order
  state : ServiceState
  txOpened : Bool
deriving DecidableEq, Repr

/-- Result of `CancelOrder` / `SettleOrder` (error-only returns). -/
structure OpOutcome where
  result : Except ServiceError Unit
  state : ServiceState
  txOpened : Bool
deriving DecidableEq, Repr

/-- `OrderServiceImpl.PlaceOrder`: validate; hash; idempotency check
(mismatch fails, a hit returns the cached order with no transaction);
otherwise open a transaction, build the order (version 1, status PENDING,
`size_matched` 0, `size_remaining` = amount, side = bet type, price =
odds), insert it (unique idempotency-key constraint), append the
"order.placed" outbox event, upsert the idempotency record with a 24 h
TTL, commit.  The matching engine (`Engine.PlaceOrder`) is never
invoked anywhere in this flow. -/
def placeOrder (s : ServiceState) (req : PlaceOrderRequest) (now : Nat)
    (newOrderId : Nat) : PlaceOutcome :=
  if !validPlaceRequest req then
    ⟨Except.error ServiceError.validationFailed, s, false⟩
  else
    match idemCheck s.idem now req.idempotencyKey (ReqHash.place req) with
    | CheckResult.mismatch =>
      ⟨Except.error ServiceError.idempotencyMismatch, s, false⟩
    | CheckResult.hit cached =>
      ⟨Except.ok (cached.getD zeroOrder), s, false⟩
    | CheckResult.miss =>
      let order : Order :=
        { id := newOrderId, userId := req.userId, side := req.betType,
          price := req.odds, size := req.amount, sizeMatched := 0,
          sizeRemaining := req.amount, status := OrderStatusPending,
          idempotencyKey := req.idempotencyKey, version := 1 }
      if s.orders.any (fun o => o.idempotencyKey == req.idempotencyKey) then
        ⟨Except.error ServiceError.duplicateIdempotencyKey, s, true⟩
      else
        let ev : OutboxEvent :=
          { aggregateId := order.id, aggregateType := "order",
            eventType := "order.placed", sagaId := req.sagaId }
        let idem' := idemUpsert s.idem req.idempotencyKey
          { requestHash := ReqHash.place req, responseData := some order,
            expiresAt := now + idemTTL }
        ⟨Except.ok order,
          { orders := s.orders ++ [order], outbox := s.outbox ++ [ev],
            idem := idem' }, true⟩

/-- `OrderServiceImpl.CancelOrder`: validate; idempotency (hit returns
nil with no transaction); transaction; `GetByIDForUpdate` (not-found is
returned bare); reject a status outside PENDING and PARTIALLY with the
fresh formatted error `order cannot be cancelled: status=...` (the
`models.ErrInvalidOrderStatus` sentinel is NOT used); otherwise set
CANCELLED, update the row, append "order.cancelled", store idempotency,
commit. -/
def cancelOrder (s : ServiceState) (req : CancelOrderRequest) (now : Nat) :
    OpOutcome :=
  if !validCancelRequest req then
    ⟨Except.error ServiceError.validationFailed, s, false⟩
  else
    match idemCheck s.idem now req.idempotencyKey (ReqHash.cancel req) with
    | CheckResult.mismatch =>
      ⟨Except.error ServiceError.idempotencyMismatch, s, false⟩
    | CheckResult.hit _ => ⟨Except.ok (), s, false⟩
    | CheckResult.miss =>
      match findOrder s.orders req.orderId with
      | none => ⟨Except.error ServiceError.orderNotFound, s, true⟩
      | some order =>
        if order.status ≠ OrderStatusPending ∧
            order.status ≠ OrderStatusPartially then
          ⟨Except.error (ServiceError.cannotCancel order.status), s, true⟩
        else
          let order' : Order := { order with
            status := OrderStatusCancelled, version := order.version + 1 }
          let ev : OutboxEvent :=
            { aggregateId := order.id, aggregateType := "order",
              eventType := "order.cancelled", sagaId := req.sagaId }
          let idem' := idemUpsert s.idem req.idempotencyKey
            { requestHash := ReqHash.cancel req, responseData := none,
              expiresAt := now + idemTTL }
          ⟨Except.ok (),
            { orders := updateOrderRow s.orders order',
              outbox := s.outbox ++ [ev], idem := idem' }, true⟩

/-- `OrderServiceImpl.SettleOrder`: validate (result must be "win" or
"loss"); idempotency (hit returns nil); transaction; `GetByIDForUpdate`
(any error is wrapped as "failed to get order"); WITHOUT checking the
current status, set it to "settled_win" when the result is "win" and to
"settled_loss" otherwise; update the row, append "order.settled", store
idempotency, commit. -/
def settleOrder (s : ServiceState) (req : SettleOrderRequest) (now : Nat) :
    OpOutcome :=
  if !validSettleRequest req then
    ⟨Except.error ServiceError.validationFailed, s, false⟩
  else
    match idemCheck s.idem now req.idempotencyKey (ReqHash.settle req) with
    | CheckResult.mismatch =>
      ⟨Except.error ServiceError.idempotencyMismatch, s, false⟩
    | CheckResult.hit _ => ⟨Except.ok (), s, false⟩
    | CheckResult.miss =>
      match findOrder s.orders req.orderId with
      | none => ⟨Except.error ServiceError.getOrderFailed, s, true⟩
      | some order =>
        let newStatus := if req.result == "win" then "settled_win"
          else "settled_loss"
        let order' : Order := { order with
          status := newStatus, version := order.version + 1 }
        let ev : OutboxEvent :=
          { aggregateId := order.id, aggregateType := "order",
            eventType := "order.settled", sagaId := req.sagaId }
        let idem' := idemUpsert s.idem req.idempotencyKey
          { requestHash := ReqHash.settle req, responseData := none,
            expiresAt := now + idemTTL }
        ⟨Except.ok (),
          { orders := updateOrderRow s.orders order',
            outbox := s.outbox ++ [ev], idem := idem' }, true⟩

/-- `OrderServiceImpl.GetActiveOrders`: returns an empty slice and a nil
error unconditionally; the repository (here: the persisted orders) and
the pagination arguments are never consulted. -/
def getActiveOrders (_persisted : List Order) (_limit _offsetArg : Int) :
    Except ServiceError (List Order) :=
  Except.ok []

/-! ## Book invariant predicates -/

/-- Whether the side's level map holds a non-empty queue at price `p`. -/
def levelNonEmptyAt (m : List (ℚ × OrderQueue)) (p : ℚ) : Bool :=
  match lookupQ m p with
  | none => false
  | some q => !q.orders.isEmpty

/-- The book invariant asserted by the spec: every price present in
`backPrices` or `layPrices` maps to a non-empty order queue. -/
abbrev levelsNonEmpty (e : Engine) : Prop :=
  (∀ p ∈ e.backPrices, levelNonEmptyAt e.backOrders p = true) ∧
  (∀ p ∈ e.layPrices, levelNonEmptyAt e.layOrders p = true)

/-- The weaker structural invariant the code does maintain: every indexed
price has a map entry — possibly an empty queue, since emptied levels are
never erased. -/
abbrev queuesCover (m : List (ℚ × OrderQueue)) (ps : List ℚ) : Prop :=
  ∀ p ∈ ps, (lookupQ m p).isSome = true

/-- `queuesCover` on both sides of the book. -/
abbrev enginePricesCovered (e : Engine) : Prop :=
  queuesCover e.backOrders e.backPrices ∧ queuesCover e.layOrders e.layPrices

/-- The incoming order's running state once earlier pairings have consumed
total size `t` — exactly the cumulative `SizeMatched += matchSize` /
`SizeRemaining -= matchSize` updates `matchOrders` applies; its
`sizeRemaining` is the incoming order's size remaining "at the time of
pairing". -/
def incAfter (o : Order) (t : ℚ) : Order :=
  { o with sizeMatched := o.sizeMatched + t,
           sizeRemaining := o.sizeRemaining - t }

/-- Total matched size of a list of matches. -/
def sumSizes (ms : List Match) : ℚ :=
  (ms.map Match.size).sum

/-! ## Concrete inputs used when evaluating individual claims -/

/-- A resting LAY order: price 2, size 10, fresh. -/
def c1RestingLay : Order :=
  { id := 1, userId := 10, side := OrderSideLay, price := 2, size := 10,
    sizeMatched := 0, sizeRemaining := 10, status := OrderStatusPending,
    idempotencyKey := "key-1", version := 1 }

/-- A PlaceOrder request whose BACK price 3 crosses `c1RestingLay`. -/
def c1Req : PlaceOrderRequest :=
  { userId := 11, eventId := "evt-1", betType := "BACK",
    selection := "sel-1", amount := 10, odds := 3,
    idempotencyKey := "key-2" }

/-- Durable state holding only the resting counterparty order. -/
def c1State : ServiceState :=
  { orders := [c1RestingLay], outbox := [], idem := [] }

/-- The order the engine would have been given for `c1Req` (what
`PlaceOrder` builds before persisting). -/
def c1IncomingOrder : Order :=
  { id := 2, userId := 11, side := OrderSideBack, price := 3, size := 10,
    sizeMatched := 0, sizeRemaining := 10, status := OrderStatusPending,
    idempotencyKey := "key-2", version := 1 }

/-- First BACK order resting at price 3 (claim C2 scenario). -/
def c2FirstBack : Order :=
  { id := 1, userId := 10, side := OrderSideBack, price := 3, size := 7,
    sizeMatched := 0, sizeRemaining := 7, status := OrderStatusPending }

/-- Second BACK order at the same price 3; the empty lay side means its
matching walk pairs nothing (claim C2 scenario). -/
def c2SecondBack : Order :=
  { id := 2, userId := 11, side := OrderSideBack, price := 3, size := 5,
    sizeMatched := 0, sizeRemaining := 5, status := OrderStatusPending }

/-- Resting LAY at price 2 size 10 (claim C3 scenario). -/
def c3RestingLay : Order :=
  { id := 1, userId := 10, side := OrderSideLay, price := 2, size := 10,
    sizeMatched := 0, sizeRemaining := 10, status := OrderStatusPending }

/-- Incoming BACK at price 2 size 10 — consumes `c3RestingLay` entirely
(claim C3 scenario). -/
def c3CrossingBack : Order :=
  { id := 2, userId := 11, side := OrderSideBack, price := 2, size := 10,
    sizeMatched := 0, sizeRemaining := 10, status := OrderStatusPending }

/-- Resting LAY at price 2 size 10 (claim C4 witness scenario). -/
def c4RestingLay : Order :=
  { id := 1, userId := 10, side := OrderSideLay, price := 2, size := 10,
    sizeMatched := 0, sizeRemaining := 10, status := OrderStatusPending }

/-- Incoming BACK at price 2 size 4 (claim C4 witness scenario). -/
def c4IncomingBack : Order :=
  { id := 2, userId := 11, side := OrderSideBack, price := 2, size := 4,
    sizeMatched := 0, sizeRemaining := 4, status := OrderStatusPending }

/-- The single match produced when `c4IncomingBack` crosses
`c4RestingLay`: level price 2, size `min 4 10 = 4`, back liability 4,
lay liability `4 * (2 - 1) = 4`. -/
def c4WitnessMatch : Match :=
  { backOrderId := 2, layOrderId := 1, backUserId := 11, layUserId := 10,
    price := 2, size := 4, backLiability := 4, layLiability := 4 }

/-- A fully matched order (claim C5 scenario). -/
def c5MatchedOrder : Order :=
  { id := 1, userId := 7, side := OrderSideBack, price := 3, size := 10,
    sizeMatched := 10, sizeRemaining := 0, status := OrderStatusMatched,
    idempotencyKey := "key-place", version := 2 }

/-- State holding the matched order (claim C5 scenario). -/
def c5State : ServiceState :=
  { orders := [c5MatchedOrder], outbox := [], idem := [] }

/-- A settlement request with the spec-sanctioned result "push". -/
def c5PushReq : SettleOrderRequest :=
  { orderId := 1, result := "push", actualPayout := 50,
    idempotencyKey := "key-settle" }

/-- A PENDING order that the claim says must not be settleable. -/
def c6PendingOrder : Order :=
  { id := 1, userId := 7, side := OrderSideBack, price := 3, size := 10,
    sizeMatched := 0, sizeRemaining := 10, status := OrderStatusPending,
    idempotencyKey := "key-place", version := 1 }

/-- State holding the PENDING order (claim C6 scenario). -/
def c6State : ServiceState :=
  { orders := [c6PendingOrder], outbox := [], idem := [] }

/-- A "win" settlement aimed at the PENDING order. -/
def c6WinReq : SettleOrderRequest :=
  { orderId := 1, result := "win", actualPayout := 25,
    idempotencyKey := "key-settle" }

/-- A fully matched order targeted by a cancel (claim C7 scenario). -/
def c7MatchedOrder : Order :=
  { id := 1, userId := 7, side := OrderSideBack, price := 3, size := 10,
    sizeMatched := 10, sizeRemaining := 0, status := OrderStatusMatched,
    idempotencyKey := "key-place", version := 2 }

/-- State holding the matched order (claim C7 scenario). -/
def c7State : ServiceState :=
  { orders := [c7MatchedOrder], outbox := [], idem := [] }

/-- The cancel request aimed at the matched order. -/
def c7CancelReq : CancelOrderRequest :=
  { orderId := 1, idempotencyKey := "key-cancel" }

/-- A live idempotency record for the C8 witness. -/
def c8Record : IdemRecord :=
  { requestHash := ReqHash.cancel { orderId := 5, idempotencyKey := "k8" },
    responseData := none, expiresAt := 100 }

/-- A valid place request on the empty state (claim C9 witness). -/
def c9Req : PlaceOrderRequest :=
  { userId := 3, eventId := "evt-9", betType := "LAY",
    selection := "sel-9", amount := 6, odds := 4,
    idempotencyKey := "key-9" }

/-- The empty durable state (claim C9 witness). -/
def c9EmptyState : ServiceState :=
  { orders := [], outbox := [], idem := [] }

/-! ## Helper lemmas -/

lemma lookupQ_setQ (m : List (ℚ × OrderQueue)) (p : ℚ) (q : OrderQueue)
    (p' : ℚ) :
    lookupQ (setQ m p q) p' = if p' = p then some q else lookupQ m p' := by
  induction m with
  | nil =>
    by_cases h : p' = p
    · subst h; simp [setQ, lookupQ]
    · simp [setQ, lookupQ, h, Ne.symm h]
  | cons kv rest ih =>
    obtain ⟨k, q0⟩ := kv
    by_cases hk : k = p
    · subst hk
      by_cases hp : p' = k
      · subst hp; simp [setQ, lookupQ]
      · simp [setQ, lookupQ, hp, Ne.symm hp]
    · by_cases hp : p' = k
      · subst hp
        simp [setQ, lookupQ, hk, Ne.symm hk]
      · simp [setQ, lookupQ, hk, hp, Ne.symm hp, ih]

lemma mem_insertPriceDescending {l : List ℚ} {x p : ℚ}
    (h : p ∈ insertPriceDescending l x) : p = x ∨ p ∈ l := by
  induction l with
  | nil => simpa [insertPriceDescending] using h
  | cons y rest ih =>
    rw [insertPriceDescending] at h
    by_cases hx : x < y
    · rw [if_pos hx] at h
      rcases List.mem_cons.1 h with h1 | h2
      · exact Or.inr (by simp [h1])
      · rcases ih h2 with h3 | h4
        · exact Or.inl h3
        · exact Or.inr (List.mem_cons_of_mem _ h4)
    · rw [if_neg hx] at h
      rcases List.mem_cons.1 h with h1 | h2
      · exact Or.inl h1
      · exact Or.inr h2

lemma mem_insertPriceAscending {l : List ℚ} {x p : ℚ}
    (h : p ∈ insertPriceAscending l x) : p = x ∨ p ∈ l := by
  induction l with
  | nil => simpa [insertPriceAscending] using h
  | cons y rest ih =>
    rw [insertPriceAscending] at h
    by_cases hx : y < x
    · rw [if_pos hx] at h
      rcases List.mem_cons.1 h with h1 | h2
      · exact Or.inr (by simp [h1])
      · rcases ih h2 with h3 | h4
        · exact Or.inl h3
        · exact Or.inr (List.mem_cons_of_mem _ h4)
    · rw [if_neg hx] at h
      rcases List.mem_cons.1 h with h1 | h2
      · exact Or.inl h1
      · exact Or.inr h2

lemma walkLayLevels_lookup_isSome (o : Order) (ps : List ℚ)
    (lay : List (ℚ × OrderQueue)) (p' : ℚ)
    (h : (lookupQ lay p').isSome = true) :
    (lookupQ (walkLayLevels o ps lay).2.2 p').isSome = true := by
  induction ps generalizing o lay with
  | nil => simpa [walkLayLevels] using h
  | cons layPrice rest ih =>
    rw [walkLayLevels]
    by_cases h0 : o.sizeRemaining = 0
    · simpa [h0] using h
    · rw [if_neg h0]
      by_cases h1 : o.price < layPrice
      · simpa [h1] using h
      · rw [if_neg h1]
        cases hq : lookupQ lay layPrice with
        | none => exact ih o lay h
        | some queue =>
          dsimp only
          apply ih
          rw [lookupQ_setQ]
          by_cases hp : p' = layPrice <;> simp [hp, h]

lemma walkBackLevels_lookup_isSome (o : Order) (ps : List ℚ)
    (back : List (ℚ × OrderQueue)) (p' : ℚ)
    (h : (lookupQ back p').isSome = true) :
    (lookupQ (walkBackLevels o ps back).2.2 p').isSome = true := by
  induction ps generalizing o back with
  | nil => simpa [walkBackLevels] using h
  | cons backPrice rest ih =>
    rw [walkBackLevels]
    by_cases h0 : o.sizeRemaining = 0
    · simpa [h0] using h
    · rw [if_neg h0]
      by_cases h1 : backPrice < o.price
      · simpa [h1] using h
      · rw [if_neg h1]
        cases hq : lookupQ back backPrice with
        | none => exact ih o back h
        | some queue =>
          dsimp only
          apply ih
          rw [lookupQ_setQ]
          by_cases hp : p' = backPrice <;> simp [hp, h]

lemma queuesCover_addBack (e : Engine) (o : Order)
    (h : queuesCover e.backOrders e.backPrices) :
    queuesCover (e.addBackOrder o).backOrders (e.addBackOrder o).backPrices := by
  unfold Engine.addBackOrder
  cases hq : lookupQ e.backOrders o.price with
  | some q =>
    intro p hp
    rw [lookupQ_setQ]
    by_cases hpp : p = o.price <;> simp [hpp, h p hp]
  | none =>
    intro p hp
    dsimp only at hp
    rw [lookupQ_setQ]
    rcases mem_insertPriceDescending hp with h1 | h2
    · simp [h1]
    · by_cases hpp : p = o.price <;> simp [hpp, h p h2]

lemma queuesCover_addLay (e : Engine) (o : Order)
    (h : queuesCover e.layOrders e.layPrices) :
    queuesCover (e.addLayOrder o).layOrders (e.addLayOrder o).layPrices := by
  unfold Engine.addLayOrder
  cases hq : lookupQ e.layOrders o.price with
  | some q =>
    intro p hp
    rw [lookupQ_setQ]
    by_cases hpp : p = o.price <;> simp [hpp, h p hp]
  | none =>
    intro p hp
    dsimp only at hp
    rw [lookupQ_setQ]
    rcases mem_insertPriceAscending hp with h1 | h2
    · simp [h1]
    · by_cases hpp : p = o.price <;> simp [hpp, h p h2]

lemma addBackOrder_lay_unchanged (e : Engine) (o : Order) :
    (e.addBackOrder o).layOrders = e.layOrders ∧
    (e.addBackOrder o).layPrices = e.layPrices := by
  unfold Engine.addBackOrder
  cases lookupQ e.backOrders o.price <;> exact ⟨rfl, rfl⟩

lemma addLayOrder_back_unchanged (e : Engine) (o : Order) :
    (e.addLayOrder o).backOrders = e.backOrders ∧
    (e.addLayOrder o).backPrices = e.backPrices := by
  unfold Engine.addLayOrder
  cases lookupQ e.layOrders o.price <;> exact ⟨rfl, rfl⟩

lemma cancelInQueues_lookup_isSome {m : List (ℚ × OrderQueue)} {oid : Nat}
    {m' : List (ℚ × OrderQueue)} {o : Order}
    (h : cancelInQueues m oid = some (m', o)) (p : ℚ) :
    (lookupQ m' p).isSome = (lookupQ m p).isSome := by
  induction m generalizing m' with
  | nil => simp [cancelInQueues] at h
  | cons kv rest ih =>
    obtain ⟨k, q⟩ := kv
    rw [cancelInQueues] at h
    cases hr : removeFirst q.orders oid with
    | some pr =>
      obtain ⟨orders', found⟩ := pr
      rw [hr] at h
      cases h
      by_cases hp : k = p <;> simp [lookupQ, hp]
    | none =>
      rw [hr] at h
      cases hc : cancelInQueues rest oid with
      | none => rw [hc] at h; cases h
      | some pr =>
        obtain ⟨rest', found⟩ := pr
        rw [hc] at h
        cases h
        by_cases hp : k = p
        · simp [lookupQ, hp]
        · simp [lookupQ, hp, ih hc]

lemma mkMatch_props (inc ex : Order) (p : ℚ) :
    (mkMatch inc ex p).price = p ∧
    (mkMatch inc ex p).size = min inc.sizeRemaining ex.sizeRemaining ∧
    (mkMatch inc ex p).backLiability = (mkMatch inc ex p).size ∧
    (mkMatch inc ex p).layLiability = (mkMatch inc ex p).size * (p - 1) := by
  unfold mkMatch
  by_cases h : inc.side = OrderSideBack <;> simp [h]

lemma matchOrdersGo_mem {inc : Order} {orders : List Order} {p : ℚ}
    {m : Match} (hm : m ∈ (matchOrdersGo inc orders p).1) :
    ∃ i ex, m = mkMatch i ex p := by
  induction orders generalizing inc with
  | nil => simp [matchOrdersGo] at hm
  | cons existing rest ih =>
    rw [matchOrdersGo] at hm
    by_cases h0 : inc.sizeRemaining = 0
    · simp [h0] at hm
    · rw [if_neg h0] at hm
      dsimp only at hm
      split at hm <;>
        rcases List.mem_cons.1 hm with h1 | h2
      · exact ⟨inc, existing, h1⟩
      · exact ih h2
      · exact ⟨inc, existing, h1⟩
      · exact ih h2

lemma walkLayLevels_mem {o : Order} {ps : List ℚ}
    {lay : List (ℚ × OrderQueue)} {m : Match}
    (hm : m ∈ (walkLayLevels o ps lay).1) :
    ∃ p ∈ ps, ∃ i ex, m = mkMatch i ex p := by
  induction ps generalizing o lay with
  | nil => simp [walkLayLevels] at hm
  | cons layPrice rest ih =>
    rw [walkLayLevels] at hm
    by_cases h0 : o.sizeRemaining = 0
    · simp [h0] at hm
    · rw [if_neg h0] at hm
      by_cases h1 : o.price < layPrice
      · simp [h1] at hm
      · rw [if_neg h1] at hm
        cases hq : lookupQ lay layPrice with
        | none =>
          rw [hq] at hm
          obtain ⟨p, hp, i, ex, he⟩ := ih hm
          exact ⟨p, List.mem_cons_of_mem _ hp, i, ex, he⟩
        | some queue =>
          rw [hq] at hm
          dsimp only at hm
          rcases List.mem_append.1 hm with h2 | h3
          · obtain ⟨i, ex, he⟩ := matchOrdersGo_mem h2
            exact ⟨layPrice, List.mem_cons_self _ _, i, ex, he⟩
          · obtain ⟨p, hp, i, ex, he⟩ := ih h3
            exact ⟨p, List.mem_cons_of_mem _ hp, i, ex, he⟩

lemma walkBackLevels_mem {o : Order} {ps : List ℚ}
    {back : List (ℚ × OrderQueue)} {m : Match}
    (hm : m ∈ (walkBackLevels o ps back).1) :
    ∃ p ∈ ps, ∃ i ex, m = mkMatch i ex p := by
  induction ps generalizing o back with
  | nil => simp [walkBackLevels] at hm
  | cons backPrice rest ih =>
    rw [walkBackLevels] at hm
    by_cases h0 : o.sizeRemaining = 0
    · simp [h0] at hm
    · rw [if_neg h0] at hm
      by_cases h1 : backPrice < o.price
      · simp [h1] at hm
      · rw [if_neg h1] at hm
        cases hq : lookupQ back backPrice with
        | none =>
          rw [hq] at hm
          obtain ⟨p, hp, i, ex, he⟩ := ih hm
          exact ⟨p, List.mem_cons_of_mem _ hp, i, ex, he⟩
        | some queue =>
          rw [hq] at hm
          dsimp only at hm
          rcases List.mem_append.1 hm with h2 | h3
          · obtain ⟨i, ex, he⟩ := matchOrdersGo_mem h2
            exact ⟨backPrice, List.mem_cons_self _ _, i, ex, he⟩
          · obtain ⟨p, hp, i, ex, he⟩ := ih h3
            exact ⟨p, List.mem_cons_of_mem _ hp, i, ex, he⟩

lemma placeBackOrder_matchList (e : Engine) (o : Order) :
    (e.placeBackOrder o).matchList =
      (walkLayLevels o e.layPrices e.layOrders).1 := by
  unfold Engine.placeBackOrder
  dsimp only
  split <;> rfl

lemma placeLayOrder_matchList (e : Engine) (o : Order) :
    (e.placeLayOrder o).matchList =
      (walkBackLevels o e.backPrices e.backOrders).1 := by
  unfold Engine.placeLayOrder
  dsimp only
  split <;> rfl

lemma incAfter_zero (o : Order) : incAfter o 0 = o := by
  simp [incAfter]

lemma incAfter_incAfter (o : Order) (a b : ℚ) :
    incAfter (incAfter o a) b = incAfter o (a + b) := by
  simp [incAfter, add_assoc, sub_sub]

lemma sumSizes_nil : sumSizes [] = 0 := rfl

lemma sumSizes_cons (m : Match) (ms : List Match) :
    sumSizes (m :: ms) = m.size + sumSizes ms := by
  simp [sumSizes]

lemma sumSizes_append (a b : List Match) :
    sumSizes (a ++ b) = sumSizes a + sumSizes b := by
  simp [sumSizes]

lemma matchOrdersGo_snd (inc : Order) (orders : List Order) (p : ℚ) :
    (matchOrdersGo inc orders p).2.1 =
      incAfter inc (sumSizes (matchOrdersGo inc orders p).1) := by
  induction orders generalizing inc with
  | nil => simp [matchOrdersGo, sumSizes_nil, incAfter_zero]
  | cons existing rest ih =>
    rw [matchOrdersGo]
    by_cases h0 : inc.sizeRemaining = 0
    · simp [h0, sumSizes_nil, incAfter_zero]
    · rw [if_neg h0]
      dsimp only
      split
      all_goals
        dsimp only
        rw [ih, sumSizes_cons, (mkMatch_props inc existing p).2.1,
          ← incAfter_incAfter]
        rfl

lemma matchOrdersGo_split (inc : Order) (orders : List Order) (p : ℚ)
    (pre suf : List Match) (m : Match)
    (h : (matchOrdersGo inc orders p).1 = pre ++ m :: suf) :
    ∃ ex ∈ orders, m = mkMatch (incAfter inc (sumSizes pre)) ex p := by
  induction orders generalizing inc pre with
  | nil =>
    rw [matchOrdersGo] at h
    simp at h
  | cons existing rest ih =>
    rw [matchOrdersGo] at h
    by_cases h0 : inc.sizeRemaining = 0
    · rw [if_pos h0] at h
      dsimp only at h
      simp at h
    · rw [if_neg h0] at h
      dsimp only at h
      split at h
      all_goals
        dsimp only at h
        cases pre with
        | nil =>
          rw [List.nil_append] at h
          injection h with h1 h2
          refine ⟨existing, List.mem_cons_self _ _, ?_⟩
          rw [sumSizes_nil, incAfter_zero]
          exact h1.symm
        | cons m1 pre' =>
          rw [List.cons_append] at h
          injection h with h1 h2
          obtain ⟨ex, hex, hm⟩ := ih _ pre' h2
          refine ⟨ex, List.mem_cons_of_mem _ hex, ?_⟩
          rw [hm, sumSizes_cons, ← h1, (mkMatch_props inc existing p).2.1,
            ← incAfter_incAfter]
          rfl

lemma walkLayLevels_split (o : Order) (ps : List ℚ)
    (lay : List (ℚ × OrderQueue)) (hnd : ps.Nodup)
    (pre suf : List Match) (m : Match)
    (h : (walkLayLevels o ps lay).1 = pre ++ m :: suf) :
    ∃ p' ∈ ps, ∃ q, lookupQ lay p' = some q ∧
      ∃ ex ∈ q.orders, m = mkMatch (incAfter o (sumSizes pre)) ex p' := by
  induction ps generalizing o lay pre with
  | nil =>
    rw [walkLayLevels] at h
    simp at h
  | cons layPrice rest ih =>
    obtain ⟨hnp, hndr⟩ := List.nodup_cons.1 hnd
    rw [walkLayLevels] at h
    by_cases h0 : o.sizeRemaining = 0
    · rw [if_pos h0] at h
      dsimp only at h
      simp at h
    · rw [if_neg h0] at h
      by_cases h1 : o.price < layPrice
      · rw [if_pos h1] at h
        dsimp only at h
        simp at h
      · rw [if_neg h1] at h
        cases hq : lookupQ lay layPrice with
        | none =>
          rw [hq] at h
          obtain ⟨p', hp', q, hlq, ex, hex, hm⟩ := ih o lay hndr pre h
          exact ⟨p', List.mem_cons_of_mem _ hp', q, hlq, ex, hex, hm⟩
        | some queue =>
          rw [hq] at h
          dsimp only at h
          rcases List.append_eq_append_iff.1 h with ⟨a', hpre, hw⟩ |
            ⟨c', hr, hms⟩
          · -- the match sits inside a later level's walk
            obtain ⟨p', hp', q', hlq', ex, hex, hm⟩ := ih _ _ hndr a' hw
            have hne : p' ≠ layPrice := fun heq => hnp (heq ▸ hp')
            rw [lookupQ_setQ, if_neg hne] at hlq'
            refine ⟨p', List.mem_cons_of_mem _ hp', q', hlq', ex, hex, ?_⟩
            rw [hm, matchOrdersGo_snd, incAfter_incAfter, ← sumSizes_append,
              ← hpre]
          · cases c' with
            | nil =>
              -- the match is the head of the later walk
              rw [List.append_nil] at hr
              obtain ⟨p', hp', q', hlq', ex, hex, hm⟩ :=
                ih _ _ hndr [] hms.symm
              have hne : p' ≠ layPrice := fun heq => hnp (heq ▸ hp')
              rw [lookupQ_setQ, if_neg hne] at hlq'
              refine ⟨p', List.mem_cons_of_mem _ hp', q', hlq', ex, hex, ?_⟩
              rw [hm, matchOrdersGo_snd, incAfter_incAfter, sumSizes_nil,
                add_zero, hr]
            | cons m0 c'' =>
              -- the match sits inside this level's pairings
              injection hms with hm0 hsuf
              obtain ⟨ex, hex, hm⟩ := matchOrdersGo_split o queue.orders
                layPrice pre c'' m (by rw [hr, hm0])
              exact ⟨layPrice, List.mem_cons_self _ _, queue, hq, ex, hex, hm⟩

lemma walkBackLevels_split (o : Order) (ps : List ℚ)
    (back : List (ℚ × OrderQueue)) (hnd : ps.Nodup)
    (pre suf : List Match) (m : Match)
    (h : (walkBackLevels o ps back).1 = pre ++ m :: suf) :
    ∃ p' ∈ ps, ∃ q, lookupQ back p' = some q ∧
      ∃ ex ∈ q.orders, m = mkMatch (incAfter o (sumSizes pre)) ex p' := by
  induction ps generalizing o back pre with
  | nil =>
    rw [walkBackLevels] at h
    simp at h
  | cons backPrice rest ih =>
    obtain ⟨hnp, hndr⟩ := List.nodup_cons.1 hnd
    rw [walkBackLevels] at h
    by_cases h0 : o.sizeRemaining = 0
    · rw [if_pos h0] at h
      dsimp only at h
      simp at h
    · rw [if_neg h0] at h
      by_cases h1 : backPrice < o.price
      · rw [if_pos h1] at h
        dsimp only at h
        simp at h
      · rw [if_neg h1] at h
        cases hq : lookupQ back backPrice with
        | none =>
          rw [hq] at h
          obtain ⟨p', hp', q, hlq, ex, hex, hm⟩ := ih o back hndr pre h
          exact ⟨p', List.mem_cons_of_mem _ hp', q, hlq, ex, hex, hm⟩
        | some queue =>
          rw [hq] at h
          dsimp only at h
          rcases List.append_eq_append_iff.1 h with ⟨a', hpre, hw⟩ |
            ⟨c', hr, hms⟩
          · obtain ⟨p', hp', q', hlq', ex, hex, hm⟩ := ih _ _ hndr a' hw
            have hne : p' ≠ backPrice := fun heq => hnp (heq ▸ hp')
            rw [lookupQ_setQ, if_neg hne] at hlq'
            refine ⟨p', List.mem_cons_of_mem _ hp', q', hlq', ex, hex, ?_⟩
            rw [hm, matchOrdersGo_snd, incAfter_incAfter, ← sumSizes_append,
              ← hpre]
          · cases c' with
            | nil =>
              rw [List.append_nil] at hr
              obtain ⟨p', hp', q', hlq', ex, hex, hm⟩ :=
                ih _ _ hndr [] hms.symm
              have hne : p' ≠ backPrice := fun heq => hnp (heq ▸ hp')
              rw [lookupQ_setQ, if_neg hne] at hlq'
              refine ⟨p', List.mem_cons_of_mem _ hp', q', hlq', ex, hex, ?_⟩
              rw [hm, matchOrdersGo_snd, incAfter_incAfter, sumSizes_nil,
                add_zero, hr]
            | cons m0 c'' =>
              injection hms with hm0 hsuf
              obtain ⟨ex, hex, hm⟩ := matchOrdersGo_split o queue.orders
                backPrice pre c'' m (by rw [hr, hm0])
              exact ⟨backPrice, List.mem_cons_self _ _, queue, hq, ex, hex, hm⟩

lemma lookupLive_idemUpsert (store : IdemStore) (key : String)
    (r : IdemRecord) (now : Nat) (h : now < r.expiresAt) :
    lookupLive (idemUpsert store key r) now key = some r := by
  induction store with
  | nil => simp [idemUpsert, lookupLive, h]
  | cons kv rest ih =>
    obtain ⟨k, r0⟩ := kv
    by_cases hk : k = key
    · subst hk
      simp [idemUpsert, lookupLive, h]
    · simp [idemUpsert, lookupLive, hk, ih]

lemma enginePricesCovered_placeBack (e : Engine) (o : Order)
    (h : enginePricesCovered e) :
    enginePricesCovered (e.placeBackOrder o).engine := by
  obtain ⟨hb, hl⟩ := h
  unfold Engine.placeBackOrder
  dsimp only
  split
  · exact ⟨hb, fun p hp =>
      walkLayLevels_lookup_isSome o e.layPrices e.layOrders p (hl p hp)⟩
  · constructor
    · exact queuesCover_addBack _ _ hb
    · have hu := addBackOrder_lay_unchanged
        { e with layOrders := (walkLayLevels o e.layPrices e.layOrders).2.2 }
        { (walkLayLevels o e.layPrices e.layOrders).2.1 with
          status := OrderStatusPartially }
      rw [hu.1, hu.2]
      exact fun p hp =>
        walkLayLevels_lookup_isSome o e.layPrices e.layOrders p (hl p hp)

lemma enginePricesCovered_placeLay (e : Engine) (o : Order)
    (h : enginePricesCovered e) :
    enginePricesCovered (e.placeLayOrder o).engine := by
  obtain ⟨hb, hl⟩ := h
  unfold Engine.placeLayOrder
  dsimp only
  split
  · exact ⟨fun p hp =>
      walkBackLevels_lookup_isSome o e.backPrices e.backOrders p (hb p hp), hl⟩
  · constructor
    · have hu := addLayOrder_back_unchanged
        { e with backOrders := (walkBackLevels o e.backPrices e.backOrders).2.2 }
        { (walkBackLevels o e.backPrices e.backOrders).2.1 with
          status := OrderStatusPartially }
      rw [hu.1, hu.2]
      exact fun p hp =>
        walkBackLevels_lookup_isSome o e.backPrices e.backOrders p (hb p hp)
    · exact queuesCover_addLay _ _ hl

lemma enginePricesCovered_place (e : Engine) (o : Order)
    (h : enginePricesCovered e) :
    enginePricesCovered (e.PlaceOrder o).engine := by
  unfold Engine.PlaceOrder
  split
  · exact enginePricesCovered_placeBack e o h
  · exact enginePricesCovered_placeLay e o h

lemma enginePricesCovered_cancel (e : Engine) (oid : Nat)
    (h : enginePricesCovered e) :
    enginePricesCovered (e.CancelOrder oid).1 := by
  obtain ⟨hb, hl⟩ := h
  unfold Engine.CancelOrder
  cases hc : cancelInQueues e.backOrders oid with
  | some pr =>
    obtain ⟨m', o⟩ := pr
    refine ⟨fun p hp => ?_, hl⟩
    rw [cancelInQueues_lookup_isSome hc p]
    exact hb p hp
  | none =>
    cases hc2 : cancelInQueues e.layOrders oid with
    | some pr =>
      obtain ⟨m', o⟩ := pr
      refine ⟨hb, fun p hp => ?_⟩
      rw [cancelInQueues_lookup_isSome hc2 p]
      exact hl p hp
    | none => exact ⟨hb, hl⟩

/-! ## Claim theorems -/

/-- C10: for every persisted order set and every limit and offset,
`GetActiveOrders` returns an empty list and no error; the repository
contents never influence the result (the implementation never queries
them). -/
theorem c10_get_active_orders_always_empty (persisted : List Order)
    (limit offsetArg : Int) :
    getActiveOrders persisted limit offsetArg = Except.ok [] := rfl

/-- C5: evaluation at the failing input — a SettleOrder request with
result "push" on an order in status MATCHED does not succeed with status
settled_push; it is rejected by validation (`oneof=win loss`) and leaves
the state untouched.  (Had validation passed, the status branch maps every
non-"win" result to "settled_loss"; no "settled_push" exists in the
code.) -/
theorem c5_settle_push_fails_validation :
    validSettleRequest c5PushReq = false ∧
    settleOrder c5State c5PushReq 0 =
      ⟨Except.error ServiceError.validationFailed, c5State, false⟩ := by
  constructor
  · rfl
  · rfl

/-- C6: evaluation at the failing input — SettleOrder with result "win"
on an existing order whose status is PENDING (not MATCHED) succeeds and
overwrites the status with "settled_win"; the service never checks that
the order is in the MATCHED state before settling. -/
theorem c6_settle_ignores_status_precondition :
    (settleOrder c6State c6WinReq 0).result = Except.ok () ∧
    (settleOrder c6State c6WinReq 0).txOpened = true ∧
    (findOrder (settleOrder c6State c6WinReq 0).state.orders 1).map
        Order.status = some "settled_win" := by
  refine ⟨rfl, rfl, rfl⟩

/-- C7: counterexample — cancelling an existing MATCHED order fails, but
with the freshly formatted "order cannot be cancelled" error, not with the
`models.ErrInvalidOrderStatus` sentinel the claim names (the state is
indeed left unchanged). -/
theorem c7_counterexample_error_is_not_sentinel :
    (cancelOrder c7State c7CancelReq 0).result =
      Except.error (ServiceError.cannotCancel OrderStatusMatched) ∧
    (cancelOrder c7State c7CancelReq 0).result ≠
      Except.error ServiceError.invalidOrderStatus ∧
    (cancelOrder c7State c7CancelReq 0).state = c7State := by
  refine ⟨rfl, ?_, rfl⟩
  intro h
  simp [cancelOrder, c7State, c7CancelReq, validCancelRequest, idemCheck,
    lookupLive, findOrder, c7MatchedOrder, OrderStatusMatched,
    OrderStatusPending, OrderStatusPartially] at h

/-- C7 (amended): for every CancelOrder request referencing an existing
order whose status is neither PENDING nor PARTIALLY, the operation fails
with the generic "order cannot be cancelled: status=..." error (not the
ErrInvalidOrderStatus sentinel) and does not mutate the order or create
any outbox or idempotency record. -/
theorem c7_cancel_invalid_status_rejected (s : ServiceState)
    (req : CancelOrderRequest) (now : Nat) (order : Order)
    (hv : validCancelRequest req = true)
    (hmiss : idemCheck s.idem now req.idempotencyKey (ReqHash.cancel req) =
      CheckResult.miss)
    (hfind : findOrder s.orders req.orderId = some order)
    (hnp : order.status ≠ OrderStatusPending)
    (hnpart : order.status ≠ OrderStatusPartially) :
    cancelOrder s req now =
      ⟨Except.error (ServiceError.cannotCancel order.status), s, true⟩ := by
  simp only [cancelOrder, hv, Bool.not_true, Bool.false_eq_true, if_false,
    hmiss, hfind]
  rw [if_pos ⟨hnp, hnpart⟩]

/-- C7 witness: the amended theorem applied at the MATCHED-order input. -/
theorem c7_cancel_invalid_status_rejected_witness :
    cancelOrder c7State c7CancelReq 0 =
      ⟨Except.error (ServiceError.cannotCancel OrderStatusMatched), c7State,
        true⟩ :=
  c7_cancel_invalid_status_rejected c7State c7CancelReq 0 c7MatchedOrder
    rfl rfl rfl (by decide) (by decide)

/-- C8: the idempotency check has exactly the three claimed outcomes —
no live record for the key (expired rows treated as absent) gives
`(nil, false, nil)`; a live record with the same hash gives the cached
response and `(true, nil)`; a live record with a different hash gives
`(nil, true, IdempotencyMismatch)`. -/
theorem c8_idempotency_check_trichotomy (store : IdemStore) (now : Nat)
    (key : String) (h : ReqHash) :
    (lookupLive store now key = none →
      idemCheck store now key h = CheckResult.miss) ∧
    (∀ r, lookupLive store now key = some r → r.requestHash = h →
      idemCheck store now key h = CheckResult.hit r.responseData) ∧
    (∀ r, lookupLive store now key = some r → r.requestHash ≠ h →
      idemCheck store now key h = CheckResult.mismatch) := by
  refine ⟨fun hn => ?_, fun r hr he => ?_, fun r hr hne => ?_⟩
  · simp [idemCheck, hn]
  · simp [idemCheck, hr, he]
  · simp [idemCheck, hr, hne]

/-- C8 witness: the trichotomy applied to a store with one live record,
once per branch. -/
theorem c8_idempotency_check_trichotomy_witness :
    idemCheck [("k8", c8Record)] 50 "other" c8Record.requestHash =
      CheckResult.miss ∧
    idemCheck [("k8", c8Record)] 50 "k8" c8Record.requestHash =
      CheckResult.hit c8Record.responseData ∧
    idemCheck [("k8", c8Record)] 50 "k8"
        (ReqHash.cancel { orderId := 6, idempotencyKey := "k8x" }) =
      CheckResult.mismatch := by
  refine ⟨?_, ?_, ?_⟩
  · exact (c8_idempotency_check_trichotomy [("k8", c8Record)] 50 "other"
      c8Record.requestHash).1 rfl
  · exact (c8_idempotency_check_trichotomy [("k8", c8Record)] 50 "k8"
      c8Record.requestHash).2.1 c8Record rfl rfl
  · exact (c8_idempotency_check_trichotomy [("k8", c8Record)] 50 "k8"
      (ReqHash.cancel { orderId := 6, idempotencyKey := "k8x" })).2.2
      c8Record rfl (by decide)

/-- C1: evaluation at the failing input — a valid PlaceOrder request whose
BACK price 3 crosses the resting LAY order at price 2 held in the store
commits only the new PENDING order row and a single "order.placed" outbox
event: `PlaceOrder` never invokes the matching engine, produces no Match,
updates no counterparty row (the resting order is returned unchanged) and
writes no "match.created" event — although `Engine.PlaceOrder`, given the
same book, produces a match. -/
theorem c1_place_order_skips_matching_engine :
    (placeOrder c1State c1Req 0 2).result = Except.ok
      { id := 2, userId := 11, side := OrderSideBack, price := 3, size := 10,
        sizeMatched := 0, sizeRemaining := 10, status := OrderStatusPending,
        idempotencyKey := "key-2", version := 1 } ∧
    (placeOrder c1State c1Req 0 2).state.orders =
      [c1RestingLay,
       { id := 2, userId := 11, side := OrderSideBack, price := 3, size := 10,
         sizeMatched := 0, sizeRemaining := 10, status := OrderStatusPending,
         idempotencyKey := "key-2", version := 1 }] ∧
    (placeOrder c1State c1Req 0 2).state.outbox =
      [{ aggregateId := 2, aggregateType := "order",
         eventType := "order.placed", sagaId := none }] ∧
    ((Engine.empty.PlaceOrder c1RestingLay).engine.PlaceOrder
        c1IncomingOrder).matchList.length = 1 := by
  refine ⟨rfl, rfl, rfl, ?_⟩
  norm_num +decide [Engine.PlaceOrder, Engine.placeBackOrder, Engine.placeLayOrder,
    walkLayLevels, walkBackLevels, matchOrdersGo, mkMatch,
    Engine.addBackOrder, Engine.addLayOrder, lookupQ, setQ,
    insertPriceAscending, insertPriceDescending, Engine.empty,
    c1RestingLay, c1IncomingOrder, OrderSideBack, OrderSideLay,
    OrderStatusPending, OrderStatusPartially, OrderStatusMatched, min_def]

/-- C2: evaluation at the failing input — placing `c2SecondBack` into a
book whose lay side is empty walks zero levels and pairs nothing, and the
residual is appended at the tail of the price-3 back level (ids [1, 2]);
but its final status is PARTIALLY, not the PENDING the claim requires
when no match occurred (`placeBackOrder` unconditionally overwrites the
PENDING set inside `addBackOrder`). -/
theorem c2_residual_status_partially_even_without_match :
    ((Engine.empty.PlaceOrder c2FirstBack).engine.PlaceOrder
        c2SecondBack).matchList = [] ∧
    ((Engine.empty.PlaceOrder c2FirstBack).engine.PlaceOrder
        c2SecondBack).order.sizeMatched = 0 ∧
    ((Engine.empty.PlaceOrder c2FirstBack).engine.PlaceOrder
        c2SecondBack).order.status = OrderStatusPartially ∧
    (lookupQ ((Engine.empty.PlaceOrder c2FirstBack).engine.PlaceOrder
        c2SecondBack).engine.backOrders 3).map
      (fun q => q.orders.map Order.id) = some [1, 2] := by
  refine ⟨rfl, rfl, rfl, rfl⟩

/-- C3: counterexample — after the incoming BACK order fully consumes the
only resting order of the price-2 lay level, price 2 is still present in
`layPrices` and still maps to a (now empty) queue: the level is not erased
at the point it becomes empty, refuting the claimed invariant. -/
theorem c3_counterexample_empty_level_not_erased :
    (2 : ℚ) ∈ ((Engine.empty.PlaceOrder c3RestingLay).engine.PlaceOrder
        c3CrossingBack).engine.layPrices ∧
    lookupQ ((Engine.empty.PlaceOrder c3RestingLay).engine.PlaceOrder
        c3CrossingBack).engine.layOrders 2 =
      some { price := 2, orders := [] } ∧
    ¬ levelsNonEmpty ((Engine.empty.PlaceOrder c3RestingLay).engine.PlaceOrder
        c3CrossingBack).engine := by
  have hev : ((Engine.empty.PlaceOrder c3RestingLay).engine.PlaceOrder
      c3CrossingBack).engine =
      { backOrders := [], layOrders := [(2, { price := 2, orders := [] })],
        backPrices := [], layPrices := [2] } := by
    norm_num +decide [Engine.PlaceOrder, Engine.placeBackOrder, Engine.placeLayOrder,
      walkLayLevels, walkBackLevels, matchOrdersGo, mkMatch,
      Engine.addBackOrder, Engine.addLayOrder, lookupQ, setQ,
      insertPriceAscending, insertPriceDescending, Engine.empty,
      c3RestingLay, c3CrossingBack, OrderSideBack, OrderSideLay,
      OrderStatusPending, OrderStatusPartially, OrderStatusMatched, min_def]
  rw [hev]
  refine ⟨by decide, rfl, by decide⟩

/-- C3 (amended): after every Book operation (`Engine.PlaceOrder` and
`Engine.CancelOrder`), every price present in `backPrices` or `layPrices`
still has an entry in the corresponding price-to-level map, but that
queue may be empty: a level whose last resting order is fully matched or
cancelled is retained in both the map and the sorted price sequence, not
erased. -/
theorem c3_price_indexes_stay_covered (e : Engine) (o : Order) (oid : Nat)
    (h : enginePricesCovered e) :
    enginePricesCovered (e.PlaceOrder o).engine ∧
    enginePricesCovered (e.CancelOrder oid).1 :=
  ⟨enginePricesCovered_place e o h, enginePricesCovered_cancel e oid h⟩

/-- C3 witness: the amended theorem applied to the empty book. -/
theorem c3_price_indexes_stay_covered_witness :
    enginePricesCovered (Engine.empty.PlaceOrder c3RestingLay).engine ∧
    enginePricesCovered (Engine.empty.CancelOrder 9).1 :=
  c3_price_indexes_stay_covered Engine.empty c3RestingLay 9
    ⟨by decide, by decide⟩

/-- C4: every Match produced by `Engine.PlaceOrder` (positioned as the
match after the prefix `pre` of earlier matches, on a book whose walked
price index has no duplicate prices, as the insertion routines guarantee)
is the pairing of the actual incoming order — in the state
`incAfter o (sumSizes pre)` reached after the earlier pairings — with an
actual resting order `ex` stored in the book's queue at some walked level
price: its price equals that level price, its size equals the lesser of
the incoming order's `size_remaining` at the time of the pairing
(`o.sizeRemaining - sumSizes pre`) and the resting order's
`size_remaining`, its back liability equals the matched size, and its lay
liability equals the matched size times (match price − 1), in exact
rational arithmetic. -/
theorem c4_match_fields (e : Engine) (o : Order)
    (hnd : (if o.side = OrderSideBack then e.layPrices
      else e.backPrices).Nodup)
    (pre suf : List Match) (m : Match)
    (hsplit : (e.PlaceOrder o).matchList = pre ++ m :: suf) :
    ∃ levelPrice q ex,
      levelPrice ∈ (if o.side = OrderSideBack then e.layPrices
        else e.backPrices) ∧
      lookupQ (if o.side = OrderSideBack then e.layOrders
        else e.backOrders) levelPrice = some q ∧
      ex ∈ q.orders ∧
      m = mkMatch (incAfter o (sumSizes pre)) ex levelPrice ∧
      m.price = levelPrice ∧
      m.size = min (o.sizeRemaining - sumSizes pre) ex.sizeRemaining ∧
      m.backLiability = m.size ∧
      m.layLiability = m.size * (m.price - 1) := by
  unfold Engine.PlaceOrder at hsplit
  by_cases hside : o.side = OrderSideBack
  · rw [if_pos hside] at hsplit hnd
    rw [placeBackOrder_matchList] at hsplit
    obtain ⟨p', hp', q, hlq, ex, hex, hm⟩ :=
      walkLayLevels_split o e.layPrices e.layOrders hnd pre suf m hsplit
    obtain ⟨h1, h2, h3, h4⟩ := mkMatch_props (incAfter o (sumSizes pre)) ex p'
    refine ⟨p', q, ex, by rw [if_pos hside]; exact hp',
      by rw [if_pos hside]; exact hlq, hex, hm, by rw [hm]; exact h1,
      by rw [hm]; exact h2, by rw [hm]; exact h3, ?_⟩
    rw [hm, h4, h1]
  · rw [if_neg hside] at hsplit hnd
    rw [placeLayOrder_matchList] at hsplit
    obtain ⟨p', hp', q, hlq, ex, hex, hm⟩ :=
      walkBackLevels_split o e.backPrices e.backOrders hnd pre suf m hsplit
    obtain ⟨h1, h2, h3, h4⟩ := mkMatch_props (incAfter o (sumSizes pre)) ex p'
    refine ⟨p', q, ex, by rw [if_neg hside]; exact hp',
      by rw [if_neg hside]; exact hlq, hex, hm, by rw [hm]; exact h1,
      by rw [hm]; exact h2, by rw [hm]; exact h3, ?_⟩
    rw [hm, h4, h1]

/-- C4 witness: the theorem applied to the single match arising when
`c4IncomingBack` (BACK, price 2, size 4) crosses `c4RestingLay`
(LAY, price 2, size 10) resting in the book. -/
theorem c4_match_fields_witness :
    ∃ levelPrice q ex,
      levelPrice ∈ (if c4IncomingBack.side = OrderSideBack
        then (Engine.empty.PlaceOrder c4RestingLay).engine.layPrices
        else (Engine.empty.PlaceOrder c4RestingLay).engine.backPrices) ∧
      lookupQ (if c4IncomingBack.side = OrderSideBack
        then (Engine.empty.PlaceOrder c4RestingLay).engine.layOrders
        else (Engine.empty.PlaceOrder c4RestingLay).engine.backOrders)
        levelPrice = some q ∧
      ex ∈ q.orders ∧
      c4WitnessMatch =
        mkMatch (incAfter c4IncomingBack (sumSizes [])) ex levelPrice ∧
      c4WitnessMatch.price = levelPrice ∧
      c4WitnessMatch.size =
        min (c4IncomingBack.sizeRemaining - sumSizes []) ex.sizeRemaining ∧
      c4WitnessMatch.backLiability = c4WitnessMatch.size ∧
      c4WitnessMatch.layLiability =
        c4WitnessMatch.size * (c4WitnessMatch.price - 1) :=
  c4_match_fields (Engine.empty.PlaceOrder c4RestingLay).engine
    c4IncomingBack
    (by
      norm_num +decide [Engine.PlaceOrder, Engine.placeBackOrder,
        Engine.placeLayOrder, walkLayLevels, walkBackLevels, matchOrdersGo,
        mkMatch, Engine.addBackOrder, Engine.addLayOrder, lookupQ, setQ,
        insertPriceAscending, insertPriceDescending, Engine.empty,
        c4RestingLay, c4IncomingBack, OrderSideBack, OrderSideLay,
        OrderStatusPending, OrderStatusPartially, OrderStatusMatched])
    [] [] c4WitnessMatch
    (by
      norm_num +decide [Engine.PlaceOrder, Engine.placeBackOrder,
        Engine.placeLayOrder, walkLayLevels, walkBackLevels, matchOrdersGo,
        mkMatch, Engine.addBackOrder, Engine.addLayOrder, lookupQ, setQ,
        insertPriceAscending, insertPriceDescending, Engine.empty,
        c4RestingLay, c4IncomingBack, c4WitnessMatch, OrderSideBack,
        OrderSideLay, OrderStatusPending, OrderStatusPartially,
        OrderStatusMatched, min_def])

/-- C9: PlaceOrder is idempotent — after a successful first call with a
fresh key (no live idempotency record, no conflicting order row),
repeating the call with the same key and the same request within the 24 h
TTL returns the same Order (deserialized from the cached response), opens
no database transaction, and leaves the durable state — order rows,
outbox events and idempotency records — exactly as the first call left
it. -/
theorem c9_place_order_idempotent (s : ServiceState)
    (req : PlaceOrderRequest) (now1 now2 id1 id2 : Nat)
    (hv : validPlaceRequest req = true)
    (hmiss : idemCheck s.idem now1 req.idempotencyKey (ReqHash.place req) =
      CheckResult.miss)
    (hdup : s.orders.any (fun o => o.idempotencyKey == req.idempotencyKey) =
      false)
    (hlive : now2 < now1 + idemTTL) :
    (placeOrder (placeOrder s req now1 id1).state req now2 id2).result =
      (placeOrder s req now1 id1).result ∧
    (placeOrder (placeOrder s req now1 id1).state req now2 id2).state =
      (placeOrder s req now1 id1).state ∧
    (placeOrder (placeOrder s req now1 id1).state req now2 id2).txOpened =
      false := by
  have hc2 : idemCheck
      (idemUpsert s.idem req.idempotencyKey
        { requestHash := ReqHash.place req,
          responseData := some
            { id := id1, userId := req.userId, side := req.betType,
              price := req.odds, size := req.amount, sizeMatched := 0,
              sizeRemaining := req.amount, status := OrderStatusPending,
              idempotencyKey := req.idempotencyKey, version := 1 },
          expiresAt := now1 + idemTTL })
      now2 req.idempotencyKey (ReqHash.place req) =
      CheckResult.hit (some
        { id := id1, userId := req.userId, side := req.betType,
          price := req.odds, size := req.amount, sizeMatched := 0,
          sizeRemaining := req.amount, status := OrderStatusPending,
          idempotencyKey := req.idempotencyKey, version := 1 }) := by
    unfold idemCheck
    rw [lookupLive_idemUpsert s.idem req.idempotencyKey _ now2 hlive]
    simp
  simp only [placeOrder, hv, Bool.not_true, Bool.false_eq_true, if_false,
    hmiss, hdup, hc2, Option.getD_some]
  exact ⟨trivial, trivial, trivial⟩

/-- C9 witness: the idempotency law applied to a concrete request on the
empty state, repeated one logical second later. -/
theorem c9_place_order_idempotent_witness :
    (placeOrder (placeOrder c9EmptyState c9Req 0 1).state c9Req 1 2).result =
      (placeOrder c9EmptyState c9Req 0 1).result ∧
    (placeOrder (placeOrder c9EmptyState c9Req 0 1).state c9Req 1 2).state =
      (placeOrder c9EmptyState c9Req 0 1).state ∧
    (placeOrder (placeOrder c9EmptyState c9Req 0 1).state c9Req 1 2).txOpened =
      false :=
  c9_place_order_idempotent c9EmptyState c9Req 0 1 1 2 (by decide) rfl rfl
    (by decide)

end OrderBook
